import Mathlib

/-!
Verification of the `adventofcode2020` repository's shared `SumChecker`
helper (`src/lib.rs`) and the handheld-halting program simulator with
loop detection and repair (`src/handheld_halting.rs`).

The Rust code is shallowly embedded: `HashMap<isize, usize>` becomes an
association list `List (Int × Nat)`, `HashSet<isize>` becomes a `List Int`
holding the distinct values in one fixed (insertion) iteration order, and
machine integers become `Int`/`Nat` (the programs involved never approach
overflow, and the algorithms are overflow-free on their intended inputs).
Fallible operations return `Option`.
-/

namespace AoC2020

/-! ## Handheld halting: the three-instruction machine (`handheld_halting.rs`) -/

/-- `enum ProgramLine { Acc(isize), Jmp(isize), Nop(isize) }`. -/
inductive ProgramLine where
  | acc (value : Int)
  | jmp (value : Int)
  | nop (value : Int)
deriving DecidableEq, Repr

/-- Outcome of one run of `find_acc_when_infinite`.  The Rust function
returns `Result<isize, isize>`; `halted` models `Ok` (normal termination),
`looped` models `Err` (loop detected / negative counter).  `crashed`
models a Rust array-indexing panic; it is proved unreachable. -/
inductive RunOutcome where
  | halted (acc : Int)
  | looped (acc : Int)
  | crashed
deriving DecidableEq, Repr

/-- The `while program_counter < size` loop of `find_acc_when_infinite`,
with an explicit fuel parameter (`none` = fuel exhausted; proved
unreachable for fuel `program.length + 1`).  State: accumulator
`accv`, visited set `visited` (as a list), program counter `pc`. -/
def loopF (program : List ProgramLine) :
    Nat → Int → List Int → Int → Option RunOutcome
  | 0, _, _, _ => none
  | fuel + 1, accv, visited, pc =>
    if pc < (program.length : Int) then
      if pc ∈ visited then some (.looped accv)
      else
        -- `usize::try_from(program_counter)` fails exactly when `pc < 0`
        if 0 ≤ pc then
          match program[pc.toNat]? with
          | none => some .crashed
          | some (.acc value) => loopF program fuel (accv + value) (pc :: visited) (pc + 1)
          | some (.jmp value) => loopF program fuel accv (pc :: visited) (pc + value)
          | some (.nop _) => loopF program fuel accv (pc :: visited) (pc + 1)
        else some (.looped accv)
    else some (.halted accv)

/-- `find_acc_when_infinite`: run from the initial state
(accumulator 0, program counter 0, empty visited set). -/
def find_acc_when_infinite (program : List ProgramLine) : Option RunOutcome :=
  loopF program (program.length + 1) 0 [] 0

/-- One repair candidate: `new_program[index]` with the tag swapped
between `Jmp` and `Nop` (operand preserved); `Acc` yields no candidate
(the `continue` branch of `process_program`). -/
def flipCandidate (program : List ProgramLine) (index : Nat) : Option (List ProgramLine) :=
  match program[index]? with
  | some (.acc _) => none
  | some (.jmp value) => some (program.set index (.nop value))
  | some (.nop value) => some (program.set index (.jmp value))
  | none => none

/-- The `for (index, instruction) in program...` repair loop of
`process_program`: the accumulator of the first flipped copy that halts
normally, scanning indices in original program order. -/
def repairSearch (program : List ProgramLine) : Option Int :=
  (List.range program.length).findSome? fun index =>
    match flipCandidate program index with
    | none => none
    | some newProgram =>
      match find_acc_when_infinite newProgram with
      | some (.halted value) => some value
      | _ => none

/-- The post-parse body of `process_program` (file reading and parsing
are outside the model).  Without `modify`, both outcomes yield their
accumulator; with `modify`, a normal halt returns immediately and a
detected loop triggers the repair search, with literal `0` when the
for-loop exhausts all candidates.  The `| _ => 0` fallbacks correspond
to the fuel-exhausted/crashed cases proved unreachable below. -/
def process_program (modify : Bool) (program : List ProgramLine) : Int :=
  if !modify then
    match find_acc_when_infinite program with
    | some (.halted value) => value
    | some (.looped value) => value
    | _ => 0
  else
    match find_acc_when_infinite program with
    | some (.halted value) => value
    | some (.looped _) => (repairSearch program).getD 0
    | _ => 0

/-! ## SumChecker (`src/lib.rs`): duplicate-aware k-subset-sum search

`base_numbers : HashMap<isize, usize>` is embedded as an association
list and `unique_numbers : HashSet<isize>` as a duplicate-free list
whose order fixes one realization of the hash set's (unspecified)
iteration order: insertion order. -/

/-- `HashMap::get_key_value`, returning the stored key together with the
count (the entry keys are kept duplicate-free by the operations below). -/
def alGetKV : List (Int × Nat) → Int → Option (Int × Nat)
  | [], _ => none
  | p :: l, k => if p.1 = k then some p else alGetKV l k

/-- `HashMap::get`, returning the stored count. -/
def alGet (l : List (Int × Nat)) (k : Int) : Option Nat :=
  (alGetKV l k).map (·.2)

/-- `HashMap::insert`: replace the entry for `k`, or add a new one. -/
def alInsert : List (Int × Nat) → Int → Nat → List (Int × Nat)
  | [], k, v => [(k, v)]
  | p :: l, k, v => if p.1 = k then (k, v) :: l else p :: alInsert l k v

/-- `HashMap::remove`. -/
def alRemove : List (Int × Nat) → Int → List (Int × Nat)
  | [], _ => []
  | p :: l, k => if p.1 = k then l else p :: alRemove l k

/-- `struct SumChecker { base_numbers, unique_numbers }`. -/
structure SumChecker where
  base_numbers : List (Int × Nat)
  unique_numbers : List Int
deriving Repr

/-- `SumChecker::new()`. -/
def SumChecker.new : SumChecker := ⟨[], []⟩

/-- `add_number`: `HashSet::insert` plus incrementing the count
(`get(..).map(|c| c + 1).unwrap_or(1)`). -/
def add_number (c : SumChecker) (number : Int) : SumChecker where
  base_numbers :=
    alInsert c.base_numbers number
      (((alGet c.base_numbers number).map fun count => count + 1).getD 1)
  unique_numbers :=
    if number ∈ c.unique_numbers then c.unique_numbers
    else c.unique_numbers ++ [number]

/-- `remove_number`: count 0 does nothing, count 1 removes the value
from both containers, larger counts decrement. -/
def remove_number (c : SumChecker) (number : Int) : SumChecker :=
  match (alGet c.base_numbers number).getD 0 with
  | 0 => c
  | 1 =>
    { base_numbers := alRemove c.base_numbers number
      unique_numbers := c.unique_numbers.erase number }
  | value + 2 =>
    { base_numbers := alInsert c.base_numbers number (value + 1)
      unique_numbers := c.unique_numbers }

/-- `SumChecker::with_vec`: add every element of the input in order. -/
def with_vec (input : List Int) : SumChecker :=
  input.foldl add_number SumChecker.new

/-- The multiplicity of `v` in the checker (`get(&v).unwrap_or(&0)`). -/
def mcount (c : SumChecker) (v : Int) : Nat :=
  (alGet c.base_numbers v).getD 0

/-- `find_sum` (the `n = 2` base case): scan the distinct values; for
each `value`, look up `target - value` and accept unless the found key
equals `value` with count 1. -/
def find_sum (c : SumChecker) (target : Int) : Option (List Int) :=
  c.unique_numbers.findSome? fun value =>
    ((alGetKV c.base_numbers (target - value)).filter fun kv =>
        kv.1 != value || kv.2 > 1).map
      fun kv => [kv.1, value]

/-- `find_sum_of_n`: base case `n = 2` delegates to `find_sum`; for
larger `n`, scan each distinct `value`, recurse on `target - value` with
`n - 1`, and accept only when the count of `value` strictly exceeds its
occurrences in the recursive result, pushing `value` at the end.  The
`n = 0` clause is unreachable for the `n ≥ 2` calls considered here (in
the source `n - 1` would underflow `usize` there). -/
def find_sum_of_n (c : SumChecker) (target : Int) (n : Nat) : Option (List Int) :=
  match n with
  | 0 => none
  | m + 1 =>
    if m + 1 = 2 then find_sum c target
    else
      c.unique_numbers.findSome? fun value =>
        ((find_sum_of_n c (target - value) m).filter fun found_values =>
            mcount c value > (found_values.filter fun fv => fv == value).length).map
          fun found_values => found_values ++ [value]

/-! ### Association-list lemmas -/

lemma alGetKV_key (l : List (Int × Nat)) (k : Int) (kv : Int × Nat)
    (h : alGetKV l k = some kv) : kv.1 = k := by
  induction l with
  | nil => simp [alGetKV] at h
  | cons p l ih =>
    by_cases hp : p.1 = k
    · rw [alGetKV, if_pos hp] at h
      cases h
      exact hp
    · rw [alGetKV, if_neg hp] at h
      exact ih h

lemma alGetKV_mem (l : List (Int × Nat)) (k : Int) (kv : Int × Nat)
    (h : alGetKV l k = some kv) : kv ∈ l := by
  induction l with
  | nil => simp [alGetKV] at h
  | cons p l ih =>
    by_cases hp : p.1 = k
    · rw [alGetKV, if_pos hp] at h
      cases h
      exact List.mem_cons_self _ _
    · rw [alGetKV, if_neg hp] at h
      exact List.mem_cons_of_mem p (ih h)

lemma alGet_eq_none_iff (l : List (Int × Nat)) (k : Int) :
    alGet l k = none ↔ k ∉ l.map Prod.fst := by
  induction l with
  | nil => simp [alGet, alGetKV]
  | cons p l ih =>
    by_cases hp : p.1 = k
    · rw [alGet, alGetKV, if_pos hp]
      simp [hp]
    · rw [alGet, alGetKV, if_neg hp]
      rw [show (Option.map (fun x => x.2) (alGetKV l k) = none) ↔ (alGet l k = none)
        from Iff.rfl, ih]
      simp only [List.map_cons, List.mem_cons, not_or]
      constructor
      · intro h
        exact ⟨fun hh => hp hh.symm, h⟩
      · intro h
        exact h.2

lemma alGet_alInsert_self (l : List (Int × Nat)) (k : Int) (v : Nat) :
    alGet (alInsert l k v) k = some v := by
  unfold alGet
  induction l with
  | nil => simp [alInsert, alGetKV]
  | cons p l ih =>
    by_cases hp : p.1 = k
    · rw [alInsert, if_pos hp, alGetKV, if_pos rfl]
      rfl
    · rw [alInsert, if_neg hp, alGetKV, if_neg hp]
      exact ih

lemma alGet_alInsert_ne (l : List (Int × Nat)) (k : Int) (v : Nat) (k' : Int)
    (hne : k' ≠ k) : alGet (alInsert l k v) k' = alGet l k' := by
  unfold alGet
  induction l with
  | nil => simp [alInsert, alGetKV, Ne.symm hne]
  | cons p l ih =>
    by_cases hp : p.1 = k
    · rw [alInsert, if_pos hp, alGetKV, if_neg (fun h : k = k' => hne h.symm), alGetKV,
        if_neg (fun h : p.1 = k' => hne (h ▸ hp))]
    · rw [alInsert, if_neg hp, alGetKV, alGetKV]
      by_cases hp' : p.1 = k'
      · rw [if_pos hp', if_pos hp']
      · rw [if_neg hp', if_neg hp']
        exact ih

lemma alGet_alRemove_self (l : List (Int × Nat)) (k : Int)
    (hnd : (l.map Prod.fst).Nodup) : alGet (alRemove l k) k = none := by
  unfold alGet
  induction l with
  | nil => simp [alRemove, alGetKV]
  | cons p l ih =>
    rw [List.map_cons, List.nodup_cons] at hnd
    by_cases hp : p.1 = k
    · rw [alRemove, if_pos hp]
      subst hp
      cases hkv : alGetKV l p.1 with
      | none => simp
      | some kv =>
        exact absurd (alGetKV_key l p.1 kv hkv ▸ List.mem_map_of_mem Prod.fst
          (alGetKV_mem l p.1 kv hkv)) hnd.1
    · rw [alRemove, if_neg hp, alGetKV, if_neg hp]
      exact ih hnd.2

lemma alGet_alRemove_ne (l : List (Int × Nat)) (k k' : Int) (hne : k' ≠ k) :
    alGet (alRemove l k) k' = alGet l k' := by
  unfold alGet
  induction l with
  | nil => simp [alRemove]
  | cons p l ih =>
    by_cases hp : p.1 = k
    · rw [alRemove, if_pos hp, alGetKV, if_neg (fun h : p.1 = k' => hne (h ▸ hp))]
    · rw [alRemove, if_neg hp, alGetKV, alGetKV]
      by_cases hp' : p.1 = k'
      · rw [if_pos hp', if_pos hp']
      · rw [if_neg hp', if_neg hp']
        exact ih

lemma mem_alInsert (l : List (Int × Nat)) (k : Int) (v : Nat) :
    ∀ p ∈ alInsert l k v, p = (k, v) ∨ p ∈ l := by
  intro q hq
  induction l with
  | nil => simpa [alInsert] using hq
  | cons p l ih =>
    by_cases hp : p.1 = k
    · rw [alInsert, if_pos hp] at hq
      rcases List.mem_cons.mp hq with h | h
      · exact Or.inl h
      · exact Or.inr (List.mem_cons_of_mem p h)
    · rw [alInsert, if_neg hp] at hq
      rcases List.mem_cons.mp hq with h | h
      · exact Or.inr (h ▸ List.mem_cons_self p l)
      · rcases ih h with h' | h'
        · exact Or.inl h'
        · exact Or.inr (List.mem_cons_of_mem p h')

lemma mem_alRemove (l : List (Int × Nat)) (k : Int) :
    ∀ p ∈ alRemove l k, p ∈ l := by
  intro q hq
  induction l with
  | nil => simp [alRemove] at hq
  | cons p l ih =>
    by_cases hp : p.1 = k
    · rw [alRemove, if_pos hp] at hq
      exact List.mem_cons_of_mem p hq
    · rw [alRemove, if_neg hp] at hq
      rcases List.mem_cons.mp hq with h | h
      · exact h ▸ List.mem_cons_self p l
      · exact List.mem_cons_of_mem p (ih h)

lemma keys_alInsert (l : List (Int × Nat)) (k : Int) (v : Nat) :
    (alInsert l k v).map Prod.fst = l.map Prod.fst ∨
      (alInsert l k v).map Prod.fst = l.map Prod.fst ++ [k] := by
  induction l with
  | nil => simp [alInsert]
  | cons p l ih =>
    by_cases hp : p.1 = k
    · rw [alInsert, if_pos hp]
      simp only [List.map_cons]
      exact Or.inl (by rw [hp])
    · rw [alInsert, if_neg hp]
      simp only [List.map_cons]
      rcases ih with h | h
      · exact Or.inl (by rw [h])
      · exact Or.inr (by rw [h, List.cons_append])

lemma keys_alInsert_nodup (l : List (Int × Nat)) (k : Int) (v : Nat)
    (hnd : (l.map Prod.fst).Nodup) (hget : alGet l k = none) :
    ((alInsert l k v).map Prod.fst).Nodup := by
  rcases keys_alInsert l k v with h | h
  · rw [h]; exact hnd
  · rw [h, List.nodup_append]
    refine ⟨hnd, List.nodup_singleton k, ?_⟩
    intro x hx hx2
    simp only [List.mem_singleton] at hx2
    subst hx2
    exact (alGet_eq_none_iff l x).mp hget hx

lemma keys_alInsert_nodup_of_mem (l : List (Int × Nat)) (k : Int) (v : Nat)
    (hnd : (l.map Prod.fst).Nodup) (hget : alGet l k ≠ none) :
    ((alInsert l k v).map Prod.fst).Nodup := by
  -- when the key is present, replacement keeps the key list unchanged
  induction l with
  | nil => simp [alInsert]
  | cons p l ih =>
    rw [List.map_cons, List.nodup_cons] at hnd
    by_cases hp : p.1 = k
    · rw [alInsert, if_pos hp, List.map_cons, List.nodup_cons]
      exact ⟨hp ▸ hnd.1, hnd.2⟩
    · rw [alInsert, if_neg hp, List.map_cons, List.nodup_cons]
      unfold alGet alGetKV at hget
      rw [if_neg hp] at hget
      refine ⟨?_, ih hnd.2 hget⟩
      intro hmem
      rcases keys_alInsert l k v with h | h
      · exact hnd.1 (h ▸ hmem)
      · rw [h, List.mem_append] at hmem
        rcases hmem with h1 | h1
        · exact hnd.1 h1
        · simp only [List.mem_singleton] at h1
          exact hp h1

lemma keys_alRemove_nodup (l : List (Int × Nat)) (k : Int)
    (hnd : (l.map Prod.fst).Nodup) : ((alRemove l k).map Prod.fst).Nodup := by
  induction l with
  | nil => exact List.nodup_nil
  | cons p l ih =>
    rw [List.map_cons, List.nodup_cons] at hnd
    by_cases hp : p.1 = k
    · rw [alRemove, if_pos hp]
      exact hnd.2
    · rw [alRemove, if_neg hp, List.map_cons, List.nodup_cons]
      refine ⟨?_, ih hnd.2⟩
      intro hmem
      rw [List.mem_map] at hmem
      obtain ⟨q, hqmem, hqk⟩ := hmem
      exact hnd.1 (hqk ▸ List.mem_map_of_mem Prod.fst (mem_alRemove l k q hqmem))

/-! ### Well-formedness of SumChecker states -/

/-- Internal well-formedness: both containers are duplicate-free, the
stored counts are positive, and the distinct-value set is exactly the
key set of the count map. -/
def WF (c : SumChecker) : Prop :=
  c.unique_numbers.Nodup ∧
  (c.base_numbers.map Prod.fst).Nodup ∧
  (∀ p ∈ c.base_numbers, 0 < p.2) ∧
  (∀ v : Int, v ∈ c.unique_numbers ↔ (alGet c.base_numbers v).isSome)

/-- States reachable from `SumChecker::new()` by `add_number` /
`remove_number` calls. -/
inductive Reachable : SumChecker → Prop where
  | new : Reachable SumChecker.new
  | add (c : SumChecker) (number : Int) : Reachable c → Reachable (add_number c number)
  | remove (c : SumChecker) (number : Int) : Reachable c → Reachable (remove_number c number)

lemma mcount_add_number_self (c : SumChecker) (x : Int) :
    mcount (add_number c x) x = mcount c x + 1 := by
  unfold mcount add_number
  have hvalue : (((alGet c.base_numbers x).map fun count => count + 1).getD 1)
      = (alGet c.base_numbers x).getD 0 + 1 := by
    cases alGet c.base_numbers x with
    | none => rfl
    | some k => rfl
  rw [hvalue, alGet_alInsert_self]
  rfl

lemma mcount_add_number_ne (c : SumChecker) (x v : Int) (hne : v ≠ x) :
    mcount (add_number c x) v = mcount c v := by
  unfold mcount add_number
  rw [alGet_alInsert_ne _ _ _ _ hne]

lemma mem_unique_add_number (c : SumChecker) (x v : Int) :
    v ∈ (add_number c x).unique_numbers ↔ v ∈ c.unique_numbers ∨ v = x := by
  unfold add_number
  by_cases hx : x ∈ c.unique_numbers
  · rw [if_pos hx]
    constructor
    · exact Or.inl
    · intro h
      rcases h with h | h
      · exact h
      · exact h ▸ hx
  · rw [if_neg hx]
    simp [List.mem_append]

lemma wf_new : WF SumChecker.new := by
  refine ⟨List.nodup_nil, List.nodup_nil, ?_, ?_⟩
  · intro p hp
    cases hp
  · intro v
    simp [SumChecker.new, alGet, alGetKV]

lemma wf_add_number (c : SumChecker) (x : Int) (hWF : WF c) : WF (add_number c x) := by
  obtain ⟨h1, h2, h3, h4⟩ := hWF
  refine ⟨?_, ?_, ?_, ?_⟩
  · unfold add_number
    by_cases hx : x ∈ c.unique_numbers
    · rw [if_pos hx]
      exact h1
    · rw [if_neg hx]
      rw [List.nodup_append]
      refine ⟨h1, List.nodup_singleton x, ?_⟩
      intro a ha ha2
      simp only [List.mem_singleton] at ha2
      exact hx (ha2 ▸ ha)
  · show ((alInsert c.base_numbers x _).map Prod.fst).Nodup
    by_cases hget : alGet c.base_numbers x = none
    · exact keys_alInsert_nodup _ _ _ h2 hget
    · exact keys_alInsert_nodup_of_mem _ _ _ h2 hget
  · intro p hp
    rcases mem_alInsert _ _ _ p hp with h | h
    · subst h
      cases alGet c.base_numbers x with
      | none => exact Nat.zero_lt_one
      | some k => exact Nat.succ_pos k
    · exact h3 p h
  · intro v
    rw [mem_unique_add_number]
    by_cases hvx : v = x
    · subst hvx
      have hg : alGet (add_number c v).base_numbers v
          = some (((alGet c.base_numbers v).map fun count => count + 1).getD 1) := by
        unfold add_number
        exact alGet_alInsert_self _ _ _
      rw [hg]
      simp
    · show _ ↔ (alGet (add_number c x).base_numbers v).isSome
      have : alGet (add_number c x).base_numbers v = alGet c.base_numbers v := by
        unfold add_number
        exact alGet_alInsert_ne _ _ _ _ hvx
      rw [this]
      constructor
      · intro h
        rcases h with h | h
        · exact (h4 v).mp h
        · exact absurd h hvx
      · intro h
        exact Or.inl ((h4 v).mpr h)

lemma wf_remove_number (c : SumChecker) (x : Int) (hWF : WF c) :
    WF (remove_number c x) := by
  obtain ⟨h1, h2, h3, h4⟩ := hWF
  unfold remove_number
  cases hcnt : (alGet c.base_numbers x).getD 0 with
  | zero => exact ⟨h1, h2, h3, h4⟩
  | succ m =>
    cases m with
    | zero =>
      refine ⟨h1.erase x, keys_alRemove_nodup _ _ h2, ?_, ?_⟩
      · intro p hp
        exact h3 p (mem_alRemove _ _ p hp)
      · intro v
        by_cases hvx : v = x
        · subst hvx
          rw [alGet_alRemove_self _ _ h2]
          simp only [Option.isSome_none, Bool.false_eq_true, iff_false]
          exact h1.not_mem_erase
        · rw [alGet_alRemove_ne _ _ _ hvx]
          rw [List.Nodup.mem_erase_iff h1]
          rw [← h4 v]
          constructor
          · intro h
            exact h.2
          · intro h
            exact ⟨hvx, h⟩
    | succ m' =>
      refine ⟨h1, ?_, ?_, ?_⟩
      · have hne : alGet c.base_numbers x ≠ none := by
          intro h
          rw [h] at hcnt
          cases hcnt
        exact keys_alInsert_nodup_of_mem _ _ _ h2 hne
      · intro p hp
        rcases mem_alInsert _ _ _ p hp with h | h
        · subst h
          exact Nat.succ_pos m'
        · exact h3 p h
      · intro v
        by_cases hvx : v = x
        · subst hvx
          rw [alGet_alInsert_self]
          simp only [Option.isSome_some, iff_true]
          rw [h4 v]
          cases hg : alGet c.base_numbers v with
          | none =>
            rw [hg] at hcnt
            cases hcnt
          | some k => simp
        · rw [alGet_alInsert_ne _ _ _ _ hvx]
          exact h4 v

lemma wf_reachable (c : SumChecker) (h : Reachable c) : WF c := by
  induction h with
  | new => exact wf_new
  | add c x _ ih => exact wf_add_number c x ih
  | remove c x _ ih => exact wf_remove_number c x ih

/-- With positive counts, `mcount` is positive exactly on the members of
the distinct-value set. -/
lemma mcount_pos_iff (c : SumChecker) (hWF : WF c) (v : Int) :
    0 < mcount c v ↔ v ∈ c.unique_numbers := by
  obtain ⟨_, _, h3, h4⟩ := hWF
  rw [h4 v]
  unfold mcount alGet
  cases hkv : alGetKV c.base_numbers v with
  | none => simp
  | some kv =>
    simp only [Option.map_some', Option.getD_some, Option.isSome_some, iff_true]
    exact h3 kv (alGetKV_mem _ _ _ hkv)

/-! ### `with_vec` builds the multiset faithfully -/

lemma mcount_foldl (l : List Int) :
    ∀ (c : SumChecker) (v : Int),
      mcount (l.foldl add_number c) v = mcount c v + l.count v := by
  induction l with
  | nil =>
    intro c v
    simp [List.count_nil]
  | cons x xs ih =>
    intro c v
    rw [List.foldl_cons, ih (add_number c x) v]
    by_cases hvx : v = x
    · subst hvx
      rw [mcount_add_number_self, List.count_cons_self]
      omega
    · rw [mcount_add_number_ne c x v hvx, List.count_cons_of_ne hvx]

lemma mcount_with_vec (l : List Int) (v : Int) :
    mcount (with_vec l) v = l.count v := by
  unfold with_vec
  rw [mcount_foldl l SumChecker.new v]
  have : mcount SumChecker.new v = 0 := rfl
  omega

lemma wf_with_vec (l : List Int) : WF (with_vec l) := by
  have : Reachable (with_vec l) := by
    unfold with_vec
    generalize hs : SumChecker.new = s
    have hr : Reachable s := hs ▸ Reachable.new
    clear hs
    induction l generalizing s with
    | nil => exact hr
    | cons x xs ih => exact ih (add_number s x) (Reachable.add s x hr)
  exact wf_reachable _ this

lemma mem_unique_with_vec (l : List Int) (v : Int) :
    v ∈ (with_vec l).unique_numbers ↔ v ∈ l := by
  rw [← mcount_pos_iff _ (wf_with_vec l) v, mcount_with_vec]
  exact List.count_pos_iff

/-! ### Soundness of the subset-sum search -/

/-- `C` is a valid `n`-element combination for `target` drawn from the
multiset given by the list `l`: it has exactly `n` elements, sums to
`target`, and uses no value more often than `l` holds it. -/
def ValidComb (l : List Int) (target : Int) (n : Nat) (C : List Int) : Prop :=
  C.length = n ∧ C.sum = target ∧ ∀ v : Int, C.count v ≤ l.count v

lemma validComb_of_bounded (l C : List Int) (target : Int) (n : Nat)
    (hlen : C.length = n) (hsum : C.sum = target)
    (hcnt : ∀ v ∈ C, C.count v ≤ l.count v) : ValidComb l target n C := by
  refine ⟨hlen, hsum, fun v => ?_⟩
  by_cases hv : v ∈ C
  · exact hcnt v hv
  · rw [List.count_eq_zero_of_not_mem hv]
    exact Nat.zero_le _

lemma length_filter_beq (l : List Int) (v : Int) :
    (l.filter fun fv => fv == v).length = l.count v := by
  rw [← List.countP_eq_length_filter]
  rfl

/-- `mcount` agrees with the entry found by `get_key_value`. -/
lemma mcount_alGetKV (c : SumChecker) (k : Int) (kv : Int × Nat)
    (h : alGetKV c.base_numbers k = some kv) : mcount c kv.1 = kv.2 := by
  have hk : kv.1 = k := alGetKV_key _ _ _ h
  unfold mcount alGet
  rw [hk, h]
  rfl

lemma count_pair (v x y : Int) :
    List.count v [x, y] = (if x = v then 1 else 0) + (if y = v then 1 else 0) := by
  by_cases hx : x = v <;> by_cases hy : y = v <;>
    simp [List.count_cons, hx, hy]

lemma find_sum_sound (c : SumChecker) (hWF : WF c) (target : Int) (C : List Int)
    (h : find_sum c target = some C) :
    C.length = 2 ∧ C.sum = target ∧ ∀ v, C.count v ≤ mcount c v := by
  obtain ⟨value, hvmem, hval⟩ := List.exists_of_findSome?_eq_some h
  rw [Option.map_eq_some'] at hval
  obtain ⟨kv, hfilter, hC⟩ := hval
  rw [Option.filter_eq_some] at hfilter
  obtain ⟨hkv, hpred⟩ := hfilter
  rw [Option.mem_def] at hkv
  simp only [Bool.or_eq_true, bne_iff_ne, ne_eq, decide_eq_true_eq] at hpred
  have hkey : kv.1 = target - value := alGetKV_key _ _ _ hkv
  have hkcnt : mcount c kv.1 = kv.2 := mcount_alGetKV c _ kv hkv
  have hkpos : 0 < kv.2 := hWF.2.2.1 kv (alGetKV_mem _ _ _ hkv)
  have hvpos : 0 < mcount c value := (mcount_pos_iff c hWF value).mpr hvmem
  subst hC
  refine ⟨rfl, ?_, ?_⟩
  · rw [List.sum_cons, List.sum_cons, List.sum_nil, hkey]
    ring
  intro v
  rw [count_pair]
  by_cases h1 : kv.1 = v <;> by_cases h2 : value = v
  · -- both components equal `v`, so the pair is (v, v) and the filter
    -- forces a count of at least two
    rw [if_pos h1, if_pos h2]
    have hd : 1 < kv.2 := by
      rcases hpred with h | h
      · exact absurd (h1.trans h2.symm) h
      · exact h
    have hmv : mcount c v = kv.2 := h1 ▸ hkcnt
    omega
  · rw [if_pos h1, if_neg h2]
    have hmv : mcount c v = kv.2 := h1 ▸ hkcnt
    omega
  · rw [if_neg h1, if_pos h2]
    have hmv : mcount c v = mcount c value := by rw [h2]
    omega
  · rw [if_neg h1, if_neg h2]
    omega

lemma find_sum_of_n_sound (c : SumChecker) (hWF : WF c) :
    ∀ (n : Nat) (target : Int) (C : List Int), 2 ≤ n →
      find_sum_of_n c target n = some C →
      C.length = n ∧ C.sum = target ∧ ∀ v, C.count v ≤ mcount c v := by
  intro n
  induction n with
  | zero =>
    intro target C h2
    omega
  | succ m ih =>
    intro target C h2 h
    rw [find_sum_of_n] at h
    by_cases hm : m + 1 = 2
    · rw [if_pos hm] at h
      rw [hm]
      exact find_sum_sound c hWF target C h
    · rw [if_neg hm] at h
      obtain ⟨value, hvmem, hval⟩ := List.exists_of_findSome?_eq_some h
      rw [Option.map_eq_some'] at hval
      obtain ⟨found, hfilter, hC⟩ := hval
      rw [Option.filter_eq_some] at hfilter
      obtain ⟨hfound, hcnt⟩ := hfilter
      simp only [gt_iff_lt, decide_eq_true_eq] at hcnt
      rw [length_filter_beq] at hcnt
      have hm2 : 2 ≤ m := by omega
      obtain ⟨hlen, hsum, hcounts⟩ := ih (target - value) found hm2 hfound
      subst hC
      refine ⟨?_, ?_, ?_⟩
      · simp [List.length_append, hlen]
      · rw [List.sum_append]
        simp only [List.sum_cons, List.sum_nil, add_zero, hsum]
        ring
      · intro v
        rw [List.count_append]
        have hone : List.count v [value] = if value = v then 1 else 0 := by
          by_cases h : value = v <;> simp [List.count_cons, h]
        rw [hone]
        have hcv := hcounts v
        by_cases hv : value = v
        · rw [if_pos hv]
          subst hv
          omega
        · rw [if_neg hv]
          omega

/-! ### Completeness of the `n = 2` base case -/

lemma alGet_eq_some_mcount (c : SumChecker) (v : Int) (h : 0 < mcount c v) :
    alGetKV c.base_numbers v = some (v, mcount c v) := by
  unfold mcount alGet at *
  cases hkv : alGetKV c.base_numbers v with
  | none =>
    rw [hkv] at h
    cases h
  | some kv =>
    have hk : kv.1 = v := alGetKV_key _ _ _ hkv
    simp only [Option.map_some', Option.getD_some, Option.some.injEq]
    cases kv with
    | mk k1 k2 => simp_all

lemma find_sum_complete (c : SumChecker) (hWF : WF c) (target a b : Int)
    (hab : a + b = target) (ha : 0 < mcount c a) (hb : 0 < mcount c b)
    (hdup : a = b → 2 ≤ mcount c a) : (find_sum c target).isSome := by
  rw [find_sum, List.findSome?_isSome_iff]
  refine ⟨a, (mcount_pos_iff c hWF a).mp ha, ?_⟩
  have hba : target - a = b := by omega
  rw [hba, alGet_eq_some_mcount c b hb]
  have hpred : ((b, mcount c b).1 != a || decide ((b, mcount c b).2 > 1)) = true := by
    by_cases hdupc : b = a
    · have h2 := hdup hdupc.symm
      simp only [Bool.or_eq_true, decide_eq_true_eq]
      right
      subst hdupc
      omega
    · simp [hdupc]
  rw [show ((some (b, mcount c b)).filter fun kv => kv.1 != a || kv.2 > 1)
      = some (b, mcount c b) by rw [Option.filter]; exact if_pos hpred]
  simp

/-! ### Characterization of the search's scan-and-accept conditions -/

lemma find_sum_isSome_iff (c : SumChecker) (hWF : WF c) (target : Int) :
    (find_sum c target).isSome ↔
      ∃ v ∈ c.unique_numbers,
        0 < mcount c (target - v) ∧ (target - v ≠ v ∨ 2 ≤ mcount c v) := by
  rw [find_sum, List.findSome?_isSome_iff]
  constructor
  · rintro ⟨v, hv, hsome⟩
    refine ⟨v, hv, ?_⟩
    cases hkv : alGetKV c.base_numbers (target - v) with
    | none =>
      rw [hkv] at hsome
      simp [Option.filter] at hsome
    | some kv =>
      rw [hkv] at hsome
      have hk : kv.1 = target - v := alGetKV_key _ _ _ hkv
      have hcnt : mcount c kv.1 = kv.2 := mcount_alGetKV _ _ _ hkv
      have hpos : 0 < kv.2 := hWF.2.2.1 kv (alGetKV_mem _ _ _ hkv)
      have hpostv : 0 < mcount c (target - v) := by
        rw [← hk]
        omega
      refine ⟨hpostv, ?_⟩
      by_cases ht : target - v = v
      · right
        -- the pair is (v, v): the filter must have passed with count > 1
        by_cases hp : (kv.1 != v || decide (kv.2 > 1)) = true
        · have h1 : (kv.1 != v) = false := by
            simp [bne_iff_ne, hk, ht]
          rw [h1, Bool.false_or, decide_eq_true_eq] at hp
          have : mcount c v = kv.2 := by rw [← ht, ← hk, hcnt]
          omega
        · rw [Option.filter] at hsome
          rw [if_neg hp] at hsome
          simp at hsome
      · exact Or.inl ht
  · rintro ⟨v, hv, hpos, hcond⟩
    refine ⟨v, hv, ?_⟩
    rw [alGet_eq_some_mcount c (target - v) hpos]
    have hpred : (((target - v, mcount c (target - v)) : Int × Nat).1 != v
        || decide (((target - v, mcount c (target - v)) : Int × Nat).2 > 1)) = true := by
      by_cases ht : target - v = v
      · rcases hcond with h | h
        · exact absurd ht h
        · simp only [Bool.or_eq_true, decide_eq_true_eq]
          right
          rw [ht]
          omega
      · simp [ht]
    rw [show ((some ((target - v, mcount c (target - v)) : Int × Nat)).filter
        fun kv => kv.1 != v || kv.2 > 1) = some (target - v, mcount c (target - v))
      by rw [Option.filter]; exact if_pos hpred]
    simp

lemma find_sum_of_n_succ_isSome_iff (c : SumChecker) (target : Int) (m : Nat)
    (hm : 2 ≤ m) :
    (find_sum_of_n c target (m + 1)).isSome ↔
      ∃ v ∈ c.unique_numbers, ∃ found,
        find_sum_of_n c (target - v) m = some found ∧
        found.count v + 1 ≤ mcount c v := by
  rw [find_sum_of_n, if_neg (by omega : ¬ m + 1 = 2), List.findSome?_isSome_iff]
  constructor
  · rintro ⟨v, hv, hsome⟩
    refine ⟨v, hv, ?_⟩
    cases hrec : find_sum_of_n c (target - v) m with
    | none =>
      rw [hrec] at hsome
      simp [Option.filter] at hsome
    | some found =>
      rw [hrec] at hsome
      refine ⟨found, rfl, ?_⟩
      by_cases hp : (decide (mcount c v > (found.filter fun fv => fv == v).length)) = true
      · rw [decide_eq_true_eq, length_filter_beq] at hp
        omega
      · rw [Option.filter] at hsome
        rw [if_neg hp] at hsome
        simp at hsome
  · rintro ⟨v, hv, found, hrec, hcnt⟩
    refine ⟨v, hv, ?_⟩
    rw [hrec]
    have hp : (decide (mcount c v > (found.filter fun fv => fv == v).length)) = true := by
      rw [decide_eq_true_eq, length_filter_beq]
      omega
    rw [show ((some found).filter
        fun found_values => mcount c v > (found_values.filter fun fv => fv == v).length)
        = some found by rw [Option.filter]; exact if_pos hp]
    simp

lemma find_sum_of_n_succ_eq_some (c : SumChecker) (target : Int) (m : Nat)
    (hm : 2 ≤ m) (C : List Int)
    (h : find_sum_of_n c target (m + 1) = some C) :
    ∃ v ∈ c.unique_numbers, ∃ found,
      find_sum_of_n c (target - v) m = some found ∧
      found.count v + 1 ≤ mcount c v ∧ C = found ++ [v] := by
  rw [find_sum_of_n, if_neg (by omega : ¬ m + 1 = 2)] at h
  obtain ⟨v, hv, hval⟩ := List.exists_of_findSome?_eq_some h
  rw [Option.map_eq_some'] at hval
  obtain ⟨found, hfilter, hC⟩ := hval
  rw [Option.filter_eq_some] at hfilter
  obtain ⟨hfound, hcnt⟩ := hfilter
  rw [Option.mem_def] at hfound
  simp only [gt_iff_lt, decide_eq_true_eq] at hcnt
  rw [length_filter_beq] at hcnt
  exact ⟨v, hv, found, hfound, by omega, hC.symm⟩

/-! ### Totality of the simulator -/

/-- A duplicate-free list of integers drawn from `[0, n)` has at most
`n` elements. -/
lemma length_le_of_nodup_mem_range {visited : List Int} {n : Nat}
    (hnd : visited.Nodup) (hmem : ∀ x ∈ visited, 0 ≤ x ∧ x < (n : Int)) :
    visited.length ≤ n := by
  have hcard : visited.toFinset.card = visited.length :=
    List.toFinset_card_of_nodup hnd
  have hsub : visited.toFinset ⊆ Finset.image (fun i : Nat => (i : Int)) (Finset.range n) := by
    intro x hx
    rw [List.mem_toFinset] at hx
    obtain ⟨hx0, hxn⟩ := hmem x hx
    rw [Finset.mem_image]
    refine ⟨x.toNat, ?_, ?_⟩
    · rw [Finset.mem_range]
      omega
    · omega
  have := Finset.card_le_card hsub
  calc visited.length = visited.toFinset.card := hcard.symm
    _ ≤ (Finset.image (fun i : Nat => (i : Int)) (Finset.range n)).card := this
    _ ≤ (Finset.range n).card := Finset.card_image_le
    _ = n := Finset.card_range n

/-- With fuel at least `program.length + 1 - visited.length`, the loop
always reaches a `halted` or `looped` outcome: it never runs out of fuel
and never crashes on an out-of-bounds index. -/
lemma loopF_total (program : List ProgramLine) :
    ∀ (fuel : Nat) (accv : Int) (visited : List Int) (pc : Int),
      visited.Nodup →
      (∀ x ∈ visited, 0 ≤ x ∧ x < (program.length : Int)) →
      program.length + 1 ≤ fuel + visited.length →
      ∃ a, loopF program fuel accv visited pc = some (.halted a) ∨
           loopF program fuel accv visited pc = some (.looped a) := by
  intro fuel
  induction fuel with
  | zero =>
    intro accv visited pc hnd hmem hfuel
    have := length_le_of_nodup_mem_range hnd hmem
    omega
  | succ fuel ih =>
    intro accv visited pc hnd hmem hfuel
    rw [loopF]
    by_cases hlt : pc < (program.length : Int)
    · rw [if_pos hlt]
      by_cases hvis : pc ∈ visited
      · rw [if_pos hvis]
        exact ⟨accv, Or.inr rfl⟩
      · rw [if_neg hvis]
        by_cases hpos : 0 ≤ pc
        · rw [if_pos hpos]
          have hidx : pc.toNat < program.length := by omega
          have hget : program[pc.toNat]? = some program[pc.toNat] :=
            List.getElem?_eq_getElem hidx
          have hnd' : (pc :: visited).Nodup := List.nodup_cons.mpr ⟨hvis, hnd⟩
          have hmem' : ∀ x ∈ pc :: visited, 0 ≤ x ∧ x < (program.length : Int) := by
            intro x hx
            rcases List.mem_cons.mp hx with h | h
            · subst h; exact ⟨hpos, hlt⟩
            · exact hmem x h
          have hfuel' : program.length + 1 ≤ fuel + (pc :: visited).length := by
            simp only [List.length_cons]
            omega
          rw [hget]
          cases hinstr : program[pc.toNat] with
          | acc value => exact ih (accv + value) (pc :: visited) (pc + 1) hnd' hmem' hfuel'
          | jmp value => exact ih accv (pc :: visited) (pc + value) hnd' hmem' hfuel'
          | nop value => exact ih accv (pc :: visited) (pc + 1) hnd' hmem' hfuel'
        · rw [if_neg hpos]
          exact ⟨accv, Or.inr rfl⟩
    · rw [if_neg hlt]
      exact ⟨accv, Or.inl rfl⟩

/-- `find_acc_when_infinite` always produces a halted or looped outcome. -/
lemma find_acc_total (program : List ProgramLine) :
    ∃ a, find_acc_when_infinite program = some (.halted a) ∨
         find_acc_when_infinite program = some (.looped a) := by
  have := loopF_total program (program.length + 1) 0 [] 0 List.nodup_nil
    (by intro x hx; cases hx) (by simp)
  exact this

/-! ### Single-step behaviour of the simulator loop -/

lemma loopF_step_acc (program : List ProgramLine) (fuel : Nat) (accv : Int)
    (visited : List Int) (pc v : Int)
    (hlt : pc < (program.length : Int)) (hnv : pc ∉ visited) (hpos : 0 ≤ pc)
    (hget : program[pc.toNat]? = some (.acc v)) :
    loopF program (fuel + 1) accv visited pc
      = loopF program fuel (accv + v) (pc :: visited) (pc + 1) := by
  rw [loopF, if_pos hlt, if_neg hnv, if_pos hpos, hget]

lemma loopF_step_jmp (program : List ProgramLine) (fuel : Nat) (accv : Int)
    (visited : List Int) (pc v : Int)
    (hlt : pc < (program.length : Int)) (hnv : pc ∉ visited) (hpos : 0 ≤ pc)
    (hget : program[pc.toNat]? = some (.jmp v)) :
    loopF program (fuel + 1) accv visited pc
      = loopF program fuel accv (pc :: visited) (pc + v) := by
  rw [loopF, if_pos hlt, if_neg hnv, if_pos hpos, hget]

lemma loopF_step_nop (program : List ProgramLine) (fuel : Nat) (accv : Int)
    (visited : List Int) (pc v : Int)
    (hlt : pc < (program.length : Int)) (hnv : pc ∉ visited) (hpos : 0 ≤ pc)
    (hget : program[pc.toNat]? = some (.nop v)) :
    loopF program (fuel + 1) accv visited pc
      = loopF program fuel accv (pc :: visited) (pc + 1) := by
  rw [loopF, if_pos hlt, if_neg hnv, if_pos hpos, hget]

lemma loopF_halt_of_ge (program : List ProgramLine) (fuel : Nat) (accv : Int)
    (visited : List Int) (pc : Int) (hge : (program.length : Int) ≤ pc) :
    loopF program (fuel + 1) accv visited pc = some (.halted accv) := by
  rw [loopF, if_neg (not_lt.mpr hge)]

lemma loopF_loop_of_mem (program : List ProgramLine) (fuel : Nat) (accv : Int)
    (visited : List Int) (pc : Int) (hlt : pc < (program.length : Int))
    (hmem : pc ∈ visited) :
    loopF program (fuel + 1) accv visited pc = some (.looped accv) := by
  rw [loopF, if_pos hlt, if_pos hmem]

lemma loopF_loop_of_neg (program : List ProgramLine) (fuel : Nat) (accv : Int)
    (visited : List Int) (pc : Int) (hneg : pc < 0) :
    loopF program (fuel + 1) accv visited pc = some (.looped accv) := by
  have hlt : pc < (program.length : Int) := by
    have : (0 : Int) ≤ (program.length : Int) := Int.ofNat_nonneg _
    omega
  rw [loopF, if_pos hlt]
  by_cases hmem : pc ∈ visited
  · rw [if_pos hmem]
  · rw [if_neg hmem, if_neg (by omega : ¬ (0 : Int) ≤ pc)]

/-! ### The repair search scans indices in order -/

lemma range_split (n i : Nat) (hin : i < n) :
    List.range n = List.range i ++ i :: List.range' (i + 1) (n - i - 1) := by
  have h1 : List.range' 0 i ++ List.range' (0 + i) (n - i) = List.range' 0 (n - i + i) :=
    List.range'_append_1 0 i (n - i)
  have hn : n - i + i = n := by omega
  rw [hn] at h1
  have h2 : List.range' (0 + i) (n - i) = i :: List.range' (i + 1) (n - i - 1) :=
    List.range'_eq_cons_iff.mpr ⟨Nat.zero_add i, by omega, rfl⟩
  rw [List.range_eq_range' n, ← h1, h2, ← List.range_eq_range']

lemma findSome?_range_first {β : Type} (n i : Nat) (g : Nat → Option β) (b : β)
    (hin : i < n) (hi : g i = some b) (hprev : ∀ j, j < i → g j = none) :
    (List.range n).findSome? g = some b := by
  rw [List.findSome?_eq_some_iff]
  refine ⟨List.range i, i, List.range' (i + 1) (n - i - 1), range_split n i hin, hi, ?_⟩
  intro x hx
  exact hprev x (List.mem_range.mp hx)

/-- The element scanned by the repair loop at index `i`. -/
lemma repair_scan_some (program : List ProgramLine) (i : Nat)
    (q : List ProgramLine) (v : Int) (hflip : flipCandidate program i = some q)
    (hrun : find_acc_when_infinite q = some (.halted v)) :
    (fun index =>
        match flipCandidate program index with
        | none => none
        | some newProgram =>
          match find_acc_when_infinite newProgram with
          | some (.halted value) => some value
          | _ => none) i = some v := by
  simp only [hflip, hrun]

lemma repair_scan_none (program : List ProgramLine) (j : Nat)
    (hfail : ∀ r, flipCandidate program j = some r →
      ∀ w, find_acc_when_infinite r ≠ some (.halted w)) :
    (fun index =>
        match flipCandidate program index with
        | none => none
        | some newProgram =>
          match find_acc_when_infinite newProgram with
          | some (.halted value) => some value
          | _ => none) j = none := by
  cases hflip : flipCandidate program j with
  | none => simp only [hflip]
  | some r =>
    cases hrun : find_acc_when_infinite r with
    | none => simp only [hflip, hrun]
    | some outcome =>
      cases outcome with
      | halted w => exact absurd hrun (hfail r hflip w)
      | looped w => simp only [hflip, hrun]
      | crashed => simp only [hflip, hrun]

lemma repairSearch_eq_of_first (program : List ProgramLine) (i : Nat)
    (q : List ProgramLine) (v : Int) (hin : i < program.length)
    (hflip : flipCandidate program i = some q)
    (hrun : find_acc_when_infinite q = some (.halted v))
    (hprev : ∀ j, j < i → ∀ r, flipCandidate program j = some r →
      ∀ w, find_acc_when_infinite r ≠ some (.halted w)) :
    repairSearch program = some v := by
  rw [repairSearch]
  exact findSome?_range_first program.length i _ v hin
    (repair_scan_some program i q v hflip hrun)
    (fun j hj => repair_scan_none program j (hprev j hj))

/-! ### Unfolding `process_program` -/

lemma process_program_modify_halted (program : List ProgramLine) (v : Int)
    (h : find_acc_when_infinite program = some (.halted v)) :
    process_program true program = v := by
  rw [process_program]
  simp [h]

lemma process_program_nomodify_halted (program : List ProgramLine) (v : Int)
    (h : find_acc_when_infinite program = some (.halted v)) :
    process_program false program = v := by
  rw [process_program]
  simp [h]

lemma process_program_modify_looped (program : List ProgramLine) (a : Int)
    (h : find_acc_when_infinite program = some (.looped a)) :
    process_program true program = (repairSearch program).getD 0 := by
  rw [process_program]
  simp [h]

/-! ## The claims -/

/-- C1: for every multiset (presented as the list `l` the checker is
built from), every target and every `n ≥ 2`, a combination returned by
`find_sum_of_n` has exactly `n` elements, sums to the target, and uses
each value at most as often as the input multiset holds it. -/
theorem claim_C1_find_sum_of_n_sound (l : List Int) (target : Int) (n : Nat)
    (C : List Int) (hn : 2 ≤ n)
    (h : find_sum_of_n (with_vec l) target n = some C) :
    C.length = n ∧ C.sum = target ∧ ∀ v : Int, C.count v ≤ l.count v := by
  obtain ⟨h1, h2, h3⟩ := find_sum_of_n_sound (with_vec l) (wf_with_vec l) n target C hn h
  exact ⟨h1, h2, fun v => mcount_with_vec l v ▸ h3 v⟩

theorem claim_C1_witness :
    2 ≤ 2 ∧
    find_sum_of_n (with_vec [1721, 979, 366, 299, 675, 1456]) 2020 2 = some [299, 1721] ∧
    ([299, 1721].length = 2 ∧ ([299, 1721] : List Int).sum = 2020 ∧
      ∀ v : Int, [299, 1721].count v ≤ [1721, 979, 366, 299, 675, 1456].count v) :=
  ⟨by norm_num, by decide,
    claim_C1_find_sum_of_n_sound [1721, 979, 366, 299, 675, 1456] 2020 2 [299, 1721]
      (by norm_num) (by decide)⟩

/-- C2 (counterexample): the program `[jmp +2]` has length 1 and its
single step moves the program counter from 0 to 2, which is beyond the
length and not equal to it; the claim says this must yield the
loop-detected outcome, but the run halts normally (`Ok 0`), because the
source loop exits whenever `program_counter < size` fails, not only at
`program_counter == size`. -/
theorem claim_C2_counterexample :
    find_acc_when_infinite [ProgramLine.jmp 2] = some (RunOutcome.halted 0) ∧
    find_acc_when_infinite [ProgramLine.jmp 2] ≠ some (RunOutcome.looped 0) := by
  constructor
  · decide
  · decide

/-- C2 (amended): the run halts normally exactly when the program
counter exits the loop at any value `≥ length` (at or beyond the end);
a repeated counter or a negative counter yields the loop-detected
outcome with the current accumulator; and the run never crashes (it
always produces a halted or looped outcome). -/
theorem claim_C2_amended :
    (∀ (program : List ProgramLine) (fuel : Nat) (accv : Int) (visited : List Int)
        (pc : Int), (program.length : Int) ≤ pc →
        loopF program (fuel + 1) accv visited pc = some (.halted accv)) ∧
    (∀ (program : List ProgramLine) (fuel : Nat) (accv : Int) (visited : List Int)
        (pc : Int), pc < (program.length : Int) → pc ∈ visited →
        loopF program (fuel + 1) accv visited pc = some (.looped accv)) ∧
    (∀ (program : List ProgramLine) (fuel : Nat) (accv : Int) (visited : List Int)
        (pc : Int), pc < 0 →
        loopF program (fuel + 1) accv visited pc = some (.looped accv)) ∧
    (∀ program : List ProgramLine,
        find_acc_when_infinite program ≠ some .crashed ∧
        find_acc_when_infinite program ≠ none) := by
  refine ⟨loopF_halt_of_ge, loopF_loop_of_mem, loopF_loop_of_neg, ?_⟩
  intro program
  obtain ⟨a, h | h⟩ := find_acc_total program
  · rw [h]
    constructor <;> intro hc <;> cases hc
  · rw [h]
    constructor <;> intro hc <;> cases hc

theorem claim_C2_amended_witness :
    ((1 : Int) ≤ 2 ∧ loopF [ProgramLine.jmp 2] 1 5 [] 2 = some (RunOutcome.halted 5)) ∧
    ((0 : Int) < 1 ∧ (0 : Int) ∈ [(0 : Int)] ∧
      loopF [ProgramLine.jmp 2] 1 7 [0] 0 = some (RunOutcome.looped 7)) ∧
    ((-1 : Int) < 0 ∧ loopF [ProgramLine.jmp 2] 1 3 [] (-1) = some (RunOutcome.looped 3)) :=
  ⟨⟨by norm_num, claim_C2_amended.1 [ProgramLine.jmp 2] 0 5 [] 2 (by norm_num)⟩,
   ⟨by norm_num, by decide,
     claim_C2_amended.2.1 [ProgramLine.jmp 2] 0 7 [0] 0 (by norm_num) (by decide)⟩,
   ⟨by norm_num, claim_C2_amended.2.2.1 [ProgramLine.jmp 2] 0 3 [] (-1) (by norm_num)⟩⟩

/-- C3 (counterexample): over the multiset
`{8, 6, 6, 6, -6, -7, 1, 1, 3, 3}` (built in this insertion order, so
the distinct values are scanned as `8, 6, -6, -7, 1, 3`) with target 11
and `n = 6`, the valid combination `[6, 6, -6, 1, 1, 3]` exists
(six elements, sum 11, within multiplicities), yet `find_sum_of_n`
returns the not-found outcome: at every scan value the recursive result
happens to exhaust that value's multiplicity, so the accept filter
rejects it. -/
theorem claim_C3_counterexample :
    find_sum_of_n (with_vec [8, 6, -6, -7, 1, 3, 3, 1, 6, 6]) 11 6 = none ∧
    ValidComb [8, 6, -6, -7, 1, 3, 3, 1, 6, 6] 11 6 [6, 6, -6, 1, 1, 3] := by
  refine ⟨by decide, validComb_of_bounded _ _ _ _ (by decide) (by decide) (by decide)⟩

/-- C3 (amended): if no valid combination exists the search returns the
not-found outcome; every returned combination is valid; and for the
base case `n = 2` the search does find a valid pair whenever one
exists.  For `n > 2` the search is incomplete: it can return not-found
although a valid combination exists (see the counterexample). -/
theorem claim_C3_amended :
    (∀ (l : List Int) (target : Int) (n : Nat), 2 ≤ n →
        (¬ ∃ C, ValidComb l target n C) →
        find_sum_of_n (with_vec l) target n = none) ∧
    (∀ (l : List Int) (target : Int) (C : List Int),
        ValidComb l target 2 C → (find_sum_of_n (with_vec l) target 2).isSome) ∧
    (∀ (l : List Int) (target : Int) (n : Nat) (C : List Int), 2 ≤ n →
        find_sum_of_n (with_vec l) target n = some C → ValidComb l target n C) := by
  have hsound : ∀ (l : List Int) (target : Int) (n : Nat) (C : List Int), 2 ≤ n →
      find_sum_of_n (with_vec l) target n = some C → ValidComb l target n C := by
    intro l target n C hn h
    obtain ⟨h1, h2, h3⟩ := find_sum_of_n_sound (with_vec l) (wf_with_vec l) n target C hn h
    exact ⟨h1, h2, fun v => mcount_with_vec l v ▸ h3 v⟩
  refine ⟨?_, ?_, hsound⟩
  · intro l target n hn hnone
    cases h : find_sum_of_n (with_vec l) target n with
    | none => rfl
    | some C => exact absurd ⟨C, hsound l target n C hn h⟩ hnone
  · intro l target C hvalid
    obtain ⟨hlen, hsum, hcnt⟩ := hvalid
    match C, hlen with
    | [a, b], _ =>
      rw [List.sum_cons, List.sum_cons, List.sum_nil, add_zero] at hsum
      have hca : 0 < List.count a [a, b] := by
        rw [count_pair]
        rw [if_pos rfl]
        omega
      have hcb : 0 < List.count b [a, b] := by
        rw [count_pair]
        rw [if_pos rfl]
        omega
      have ha : 0 < mcount (with_vec l) a := by
        rw [mcount_with_vec]
        have := hcnt a
        omega
      have hb : 0 < mcount (with_vec l) b := by
        rw [mcount_with_vec]
        have := hcnt b
        omega
      have hdup : a = b → 2 ≤ mcount (with_vec l) a := by
        intro hab
        subst hab
        have hc2 : List.count a [a, a] = 2 := by
          rw [count_pair]
          norm_num
        rw [mcount_with_vec]
        have := hcnt a
        omega
      have := find_sum_complete (with_vec l) (wf_with_vec l) target a b hsum ha hb hdup
      rw [show find_sum_of_n (with_vec l) target 2 = find_sum (with_vec l) target from rfl]
      exact this

theorem claim_C3_amended_witness :
    ValidComb [1721, 979, 366, 299, 675, 1456] 2020 2 [299, 1721] ∧
    (find_sum_of_n (with_vec [1721, 979, 366, 299, 675, 1456]) 2020 2).isSome :=
  ⟨validComb_of_bounded _ _ _ _ (by decide) (by decide) (by decide),
   claim_C3_amended.2.1 [1721, 979, 366, 299, 675, 1456] 2020 [299, 1721]
     (validComb_of_bounded _ _ _ _ (by decide) (by decide) (by decide))⟩

/-- C4: on a loop-detecting program, the repair search skips accumulate
instructions (no candidate), swaps a jump or no-op tag in place with the
operand preserved, and `process_program` in repair mode returns the
accumulator of the first (in original index order) flipped copy that
halts normally. -/
theorem claim_C4_repair (program : List ProgramLine) (a0 : Int)
    (hloop : find_acc_when_infinite program = some (.looped a0)) :
    (∀ (i : Nat) (v : Int), program[i]? = some (.acc v) →
        flipCandidate program i = none) ∧
    (∀ (i : Nat) (v : Int), program[i]? = some (.jmp v) →
        flipCandidate program i = some (program.set i (.nop v))) ∧
    (∀ (i : Nat) (v : Int), program[i]? = some (.nop v) →
        flipCandidate program i = some (program.set i (.jmp v))) ∧
    (∀ (i : Nat) (q : List ProgramLine) (v : Int), i < program.length →
        flipCandidate program i = some q →
        find_acc_when_infinite q = some (.halted v) →
        (∀ j, j < i → ∀ r, flipCandidate program j = some r →
          ∀ w, find_acc_when_infinite r ≠ some (.halted w)) →
        process_program true program = v) := by
  refine ⟨?_, ?_, ?_, ?_⟩
  · intro i v h
    rw [flipCandidate, h]
  · intro i v h
    rw [flipCandidate, h]
  · intro i v h
    rw [flipCandidate, h]
  · intro i q v hin hflip hrun hprev
    rw [process_program_modify_looped program a0 hloop,
      repairSearch_eq_of_first program i q v hin hflip hrun hprev]
    rfl

theorem claim_C4_witness :
    find_acc_when_infinite [ProgramLine.jmp 0, ProgramLine.nop 0, ProgramLine.acc 2]
      = some (RunOutcome.looped 0) ∧
    flipCandidate [ProgramLine.jmp 0, ProgramLine.nop 0, ProgramLine.acc 2] 2 = none ∧
    flipCandidate [ProgramLine.jmp 0, ProgramLine.nop 0, ProgramLine.acc 2] 0
      = some [ProgramLine.nop 0, ProgramLine.nop 0, ProgramLine.acc 2] ∧
    flipCandidate [ProgramLine.jmp 0, ProgramLine.nop 0, ProgramLine.acc 2] 1
      = some [ProgramLine.jmp 0, ProgramLine.jmp 0, ProgramLine.acc 2] ∧
    find_acc_when_infinite [ProgramLine.nop 0, ProgramLine.nop 0, ProgramLine.acc 2]
      = some (RunOutcome.halted 2) ∧
    process_program true [ProgramLine.jmp 0, ProgramLine.nop 0, ProgramLine.acc 2] = 2 :=
  ⟨by decide,
   (claim_C4_repair _ 0 (by decide)).1 2 2 (by decide),
   (claim_C4_repair _ 0 (by decide)).2.1 0 0 (by decide),
   (claim_C4_repair _ 0 (by decide)).2.2.1 1 0 (by decide),
   by decide,
   (claim_C4_repair _ 0 (by decide)).2.2.2 0
     [ProgramLine.nop 0, ProgramLine.nop 0, ProgramLine.acc 2] 2
     (by norm_num) (by decide) (by decide)
     (fun j hj => absurd hj (Nat.not_lt_zero j))⟩

/-- C5 (counterexample): when no flip repairs the program,
`process_program` returns the plain value `0`, which is
indistinguishable from a successfully repaired run whose accumulator is
`0`: the looping, unrepairable program `[jmp 0, jmp -1]` and the
repairable program `[jmp 0]` both produce the result `0`. -/
theorem claim_C5_counterexample :
    process_program true [ProgramLine.jmp 0, ProgramLine.jmp (-1)] = 0 ∧
    repairSearch [ProgramLine.jmp 0, ProgramLine.jmp (-1)] = none ∧
    process_program true [ProgramLine.jmp 0] = 0 ∧
    repairSearch [ProgramLine.jmp 0] = some 0 :=
  ⟨by decide, by decide, by decide, by decide⟩

/-- C5 (amended): when the repair search exhausts all candidates
without success on a loop-detecting program, `process_program` returns
the ordinary numeric value `0` — not a distinguished "no repair found"
outcome. -/
theorem claim_C5_amended (program : List ProgramLine) (a : Int)
    (hloop : find_acc_when_infinite program = some (.looped a))
    (hnone : repairSearch program = none) :
    process_program true program = 0 := by
  rw [process_program_modify_looped program a hloop, hnone]
  rfl

theorem claim_C5_amended_witness :
    find_acc_when_infinite [ProgramLine.jmp 0, ProgramLine.jmp (-1)]
      = some (RunOutcome.looped 0) ∧
    repairSearch [ProgramLine.jmp 0, ProgramLine.jmp (-1)] = none ∧
    process_program true [ProgramLine.jmp 0, ProgramLine.jmp (-1)] = 0 :=
  ⟨by decide, by decide,
   claim_C5_amended [ProgramLine.jmp 0, ProgramLine.jmp (-1)] 0 (by decide) (by decide)⟩

/-- C6: the simulator starts from accumulator 0, program counter 0 and
an empty visited set, and each step behaves as specified: accumulate
adds its operand to the accumulator and 1 to the counter, jump adds its
operand to the counter (no extra increment), and no-op adds 1 to the
counter ignoring its operand; in each case the counter just visited is
recorded. -/
theorem claim_C6_step_semantics :
    (∀ program : List ProgramLine,
      find_acc_when_infinite program = loopF program (program.length + 1) 0 [] 0) ∧
    (∀ (program : List ProgramLine) (fuel : Nat) (accv : Int) (visited : List Int)
        (pc v : Int), pc < (program.length : Int) → pc ∉ visited → 0 ≤ pc →
        program[pc.toNat]? = some (.acc v) →
        loopF program (fuel + 1) accv visited pc
          = loopF program fuel (accv + v) (pc :: visited) (pc + 1)) ∧
    (∀ (program : List ProgramLine) (fuel : Nat) (accv : Int) (visited : List Int)
        (pc v : Int), pc < (program.length : Int) → pc ∉ visited → 0 ≤ pc →
        program[pc.toNat]? = some (.jmp v) →
        loopF program (fuel + 1) accv visited pc
          = loopF program fuel accv (pc :: visited) (pc + v)) ∧
    (∀ (program : List ProgramLine) (fuel : Nat) (accv : Int) (visited : List Int)
        (pc v : Int), pc < (program.length : Int) → pc ∉ visited → 0 ≤ pc →
        program[pc.toNat]? = some (.nop v) →
        loopF program (fuel + 1) accv visited pc
          = loopF program fuel accv (pc :: visited) (pc + 1)) :=
  ⟨fun _ => rfl, loopF_step_acc, loopF_step_jmp, loopF_step_nop⟩

theorem claim_C6_witness :
    ((0 : Int) < 3 ∧ (0 : Int) ∉ ([] : List Int) ∧ (0 : Int) ≤ 0 ∧
      [ProgramLine.acc 4, ProgramLine.jmp 2, ProgramLine.nop 9][(0 : Int).toNat]?
        = some (ProgramLine.acc 4) ∧
      loopF [ProgramLine.acc 4, ProgramLine.jmp 2, ProgramLine.nop 9] 3 10 [] 0
        = loopF [ProgramLine.acc 4, ProgramLine.jmp 2, ProgramLine.nop 9] 2 14 [0] 1) ∧
    ((1 : Int) < 3 ∧ (1 : Int) ∉ ([0] : List Int) ∧ (0 : Int) ≤ 1 ∧
      [ProgramLine.acc 4, ProgramLine.jmp 2, ProgramLine.nop 9][(1 : Int).toNat]?
        = some (ProgramLine.jmp 2) ∧
      loopF [ProgramLine.acc 4, ProgramLine.jmp 2, ProgramLine.nop 9] 2 14 [0] 1
        = loopF [ProgramLine.acc 4, ProgramLine.jmp 2, ProgramLine.nop 9] 1 14 [1, 0] 3) ∧
    ((2 : Int) < 3 ∧ (2 : Int) ∉ ([0] : List Int) ∧ (0 : Int) ≤ 2 ∧
      [ProgramLine.acc 4, ProgramLine.jmp 2, ProgramLine.nop 9][(2 : Int).toNat]?
        = some (ProgramLine.nop 9) ∧
      loopF [ProgramLine.acc 4, ProgramLine.jmp 2, ProgramLine.nop 9] 2 14 [0] 2
        = loopF [ProgramLine.acc 4, ProgramLine.jmp 2, ProgramLine.nop 9] 1 14 [2, 0] 3) :=
  ⟨⟨by norm_num, by decide, by norm_num, by decide,
    claim_C6_step_semantics.2.1 _ 2 10 [] 0 4 (by norm_num) (by decide) (by norm_num)
      (by decide)⟩,
   ⟨by norm_num, by decide, by norm_num, by decide,
    claim_C6_step_semantics.2.2.1 _ 1 14 [0] 1 2 (by norm_num) (by decide) (by norm_num)
      (by decide)⟩,
   ⟨by norm_num, by decide, by norm_num, by decide,
    claim_C6_step_semantics.2.2.2 _ 1 14 [0] 2 9 (by norm_num) (by decide) (by norm_num)
      (by decide)⟩⟩

/-- C7: on every finite program the simulator terminates with exactly
one of the two outcomes — normal halt or detected loop — and never
both; determinism is immediate since the run is a function of the
program. -/
theorem claim_C7_total_dichotomy (program : List ProgramLine) :
    (∃ a, find_acc_when_infinite program = some (.halted a) ∨
          find_acc_when_infinite program = some (.looped a)) ∧
    ¬ (∃ a b, find_acc_when_infinite program = some (.halted a) ∧
          find_acc_when_infinite program = some (.looped b)) := by
  refine ⟨find_acc_total program, ?_⟩
  rintro ⟨a, b, h1, h2⟩
  rw [h1] at h2
  exact RunOutcome.noConfusion (Option.some.inj h2)

/-- C8: the search's base case succeeds exactly when some distinct
value `v` has `target - v` also held, with the pair `(v, v)` requiring
multiplicity at least two; the recursive case succeeds exactly when for
some distinct value `v` the recursive `(n-1)`-search on `target - v`
returns a combination using `v` strictly fewer times than its count,
and the returned combination is that recursive result with `v`
appended. -/
theorem claim_C8_algorithm (c : SumChecker) (hWF : WF c) (target : Int) (m : Nat)
    (hm : 2 ≤ m) :
    ((find_sum_of_n c target 2).isSome ↔
      ∃ v ∈ c.unique_numbers,
        0 < mcount c (target - v) ∧ (target - v ≠ v ∨ 2 ≤ mcount c v)) ∧
    ((find_sum_of_n c target (m + 1)).isSome ↔
      ∃ v ∈ c.unique_numbers, ∃ found,
        find_sum_of_n c (target - v) m = some found ∧
        found.count v + 1 ≤ mcount c v) ∧
    (∀ C, find_sum_of_n c target (m + 1) = some C →
      ∃ v ∈ c.unique_numbers, ∃ found,
        find_sum_of_n c (target - v) m = some found ∧
        found.count v + 1 ≤ mcount c v ∧ C = found ++ [v]) :=
  ⟨by
    rw [show find_sum_of_n c target 2 = find_sum c target from rfl]
    exact find_sum_isSome_iff c hWF target,
   find_sum_of_n_succ_isSome_iff c target m hm,
   fun C h => find_sum_of_n_succ_eq_some c target m hm C h⟩

theorem claim_C8_witness :
    2 ≤ 2 ∧
    (((find_sum_of_n (with_vec [1, 2]) 3 2).isSome ↔
      ∃ v ∈ (with_vec [1, 2]).unique_numbers,
        0 < mcount (with_vec [1, 2]) (3 - v) ∧
          (3 - v ≠ v ∨ 2 ≤ mcount (with_vec [1, 2]) v)) ∧
    ((find_sum_of_n (with_vec [1, 2]) 3 (2 + 1)).isSome ↔
      ∃ v ∈ (with_vec [1, 2]).unique_numbers, ∃ found,
        find_sum_of_n (with_vec [1, 2]) (3 - v) 2 = some found ∧
        found.count v + 1 ≤ mcount (with_vec [1, 2]) v) ∧
    (∀ C, find_sum_of_n (with_vec [1, 2]) 3 (2 + 1) = some C →
      ∃ v ∈ (with_vec [1, 2]).unique_numbers, ∃ found,
        find_sum_of_n (with_vec [1, 2]) (3 - v) 2 = some found ∧
        found.count v + 1 ≤ mcount (with_vec [1, 2]) v ∧ C = found ++ [v])) :=
  ⟨by norm_num,
   claim_C8_algorithm (with_vec [1, 2]) (wf_with_vec [1, 2]) 3 2 (by norm_num)⟩

/-- C9: in every state reachable from the empty checker by `add_number`
and `remove_number` calls, a value has positive count in the count map
exactly when it belongs to the distinct-value set. -/
theorem claim_C9_invariant (c : SumChecker) (h : Reachable c) (v : Int) :
    0 < mcount c v ↔ v ∈ c.unique_numbers :=
  mcount_pos_iff c (wf_reachable c h) v

theorem claim_C9_witness :
    (0 < mcount (remove_number (add_number (add_number SumChecker.new 5) 5) 5) 5 ↔
      5 ∈ (remove_number (add_number (add_number SumChecker.new 5) 5) 5).unique_numbers) :=
  claim_C9_invariant _
    (Reachable.remove _ 5 (Reachable.add _ 5 (Reachable.add _ 5 Reachable.new))) 5

/-- C10: requesting repair mode on a program that already halts
normally returns the accumulator of the unmodified original run — the
same value the non-repair mode produces — and the definition returns it
before the repair search is ever consulted. -/
theorem claim_C10_modify_on_halting (program : List ProgramLine) (v : Int)
    (h : find_acc_when_infinite program = some (.halted v)) :
    process_program true program = v ∧
    process_program true program = process_program false program := by
  have h1 := process_program_modify_halted program v h
  have h2 := process_program_nomodify_halted program v h
  exact ⟨h1, h1.trans h2.symm⟩

theorem claim_C10_witness :
    find_acc_when_infinite [ProgramLine.nop 0] = some (RunOutcome.halted 0) ∧
    (process_program true [ProgramLine.nop 0] = 0 ∧
      process_program true [ProgramLine.nop 0] = process_program false [ProgramLine.nop 0]) :=
  ⟨by decide, claim_C10_modify_on_halting [ProgramLine.nop 0] 0 (by decide)⟩

end AoC2020
